import Mathlib

/-!
Verification of `src/graphene/types/mutation.py` (dangerfarms/graphene).

The file under study builds a GraphQL mutation field from a declarative
class definition.  We give a shallow embedding of its three operations:

* `run_validators` (lines 16-24): the convention-based validator dispatch
  executed by the generated resolver;
* `Mutation.__init_subclass_with_meta__` (lines 78-144): the
  construction-time transformation from a mutation definition into the
  metadata record (merged field set, output type, argument map, resolver);
* `Mutation.Field` (lines 146-159): mounting the metadata as a field
  descriptor.

Python dictionaries are embedded as association lists with insertion-order
`update` semantics; Python attribute lookup (`getattr`) becomes `Option`;
assertion failures become `Except.error`.  The generated resolver is
embedded as a trace-producing function so that "validator `f` is called
with value `v` before `mutate` runs" is expressible as an event ordering.
-/

namespace Graphene

/-- A Python `dict` with `String` keys, kept in insertion order. -/
abbrev Dict (α : Type) : Type := List (String × α)

/-- Lookup, mirroring `d[k]` / `d.get(k)`: first entry with the key. -/
def dictGet {α : Type} (d : Dict α) (k : String) : Option α :=
  match d with
  | [] => none
  | (k', v) :: rest => if k' = k then some v else dictGet rest k

/-- The keys of a dict, in order. -/
def dictKeys {α : Type} (d : Dict α) : List String :=
  d.map Prod.fst

/-- `d[k] = v` for a single key: replaces the value in place if the key is
present (keeping its position), otherwise appends, as Python does. -/
def dictInsert {α : Type} (d : Dict α) (k : String) (v : α) : Dict α :=
  match d with
  | [] => [(k, v)]
  | (k', v') :: rest =>
      if k' = k then (k', v) :: rest else (k', v') :: dictInsert rest k v

/-- `d.update(e)`: insert every entry of `e` into `d`, left to right. -/
def dictUpdate {α : Type} (d e : Dict α) : Dict α :=
  e.foldl (fun acc kv => dictInsert acc kv.1 kv.2) d

/-- A value supplied for one declared argument in the keyword payload of a
mutation execution.  `run_validators` calls `.keys()` on it, which succeeds
exactly when the value is dict-shaped; a scalar (e.g. a plain string)
raises `AttributeError` there. -/
inductive ArgVal : Type where
  | dict (entries : Dict String)
  | scalar (s : String)
deriving DecidableEq, Repr

/-- Whether an argument value exposes the `keys()` mapping interface. -/
def ArgVal.isDict : ArgVal → Bool
  | ArgVal.dict _ => true
  | ArgVal.scalar _ => false

/-- An argument object as declared in `Arguments`/`Input`.  For the
embedding, the only behaviour `run_validators` observes on it is
`hasattr(argument, "validate_" + k)` and the call of that attribute, so we
record the set of sub-key names `k` for which a `validate_k` attribute
exists. -/
structure ArgumentV : Type where
  validators : List String
deriving DecidableEq, Repr

/-- Observable events of a generated resolver run: a validator call
(which argument, which sub-key, which sub-value), and the invocation of
the user's `mutate` function. -/
inductive Event : Type where
  | validate (argName subKey subValue : String)
  | mutateCall
deriving DecidableEq, Repr

/-- Errors raised by `run_validators`: `kwargs[argument_name]` on a missing
key (line 19) raises `KeyError`; `arg_value.keys()` on a non-mapping value
(line 20) raises `AttributeError`. -/
inductive RunError : Type where
  | keyError (argName : String)
  | attributeError (argName : String)
deriving DecidableEq, Repr

/-- Validator calls made for one argument (lines 20-24): iterate the
sub-entries of the argument's value in order; whenever the argument object
has an attribute `validate_<subkey>`, call it with the sub-value. -/
def argValidatorEvents (argName : String) (arg : ArgumentV)
    (entries : Dict String) : List Event :=
  entries.filterMap fun kv =>
    if arg.validators.contains kv.1 then
      some (Event.validate argName kv.1 kv.2)
    else none

/-- Embedding of `run_validators(arguments, *args, **kwargs)` (lines
16-24).  Iterates the declared arguments in order; for each, looks the
argument name up in the keyword payload (raising `KeyError` if absent),
asks the value for its keys (raising `AttributeError` on a scalar), and
fires the matching validators.  Returns the trace of validator calls. -/
def run_validators (arguments : Dict ArgumentV) (kwargs : Dict ArgVal) :
    Except RunError (List Event) :=
  match arguments with
  | [] => Except.ok []
  | (argName, arg) :: rest =>
      match dictGet kwargs argName with
      | none => Except.error (RunError.keyError argName)
      | some (ArgVal.scalar _) => Except.error (RunError.attributeError argName)
      | some (ArgVal.dict entries) =>
          match run_validators rest kwargs with
          | Except.error e => Except.error e
          | Except.ok evs => Except.ok (argValidatorEvents argName arg entries ++ evs)

/-- Embedding of the generated resolver (lines 130-132): run the
validators, then call the (unbound) `mutate` function on the same payload
and return its result unchanged.  The returned trace has `mutateCall`
last, after every validator event. -/
def resolver (arguments : Dict ArgumentV) (mutate : Dict ArgVal → String)
    (kwargs : Dict ArgVal) : Except RunError (List Event × String) :=
  match run_validators arguments kwargs with
  | Except.error e => Except.error e
  | Except.ok evs => Except.ok (evs ++ [Event.mutateCall], mutate kwargs)

/-- A value passed in the `interfaces` iterable of a mutation definition:
either an actual subclass of `Interface` (carrying its `_meta.fields`), or
some other value, recorded by its display string (what `"{}".format(v)`
would print). -/
inductive IfaceArg : Type where
  | iface (fields : Dict String)
  | bad (shown : String)
deriving DecidableEq, Repr

/-- The inputs the builder reads off the mutation definition class itself
(`cls`): its name, the optional `Output` inner class (as the name of the
output type it denotes), the field dicts scraped from the `__dict__` of
each class in `cls.__mro__` (most derived first, as `__mro__` lists them;
each dict is `yank_fields_from_attrs(base.__dict__, _as=Field)`), the
attribute dicts of the optional `Arguments` and `Input` inner classes
(their `props`), and whether a `mutate` attribute exists. -/
structure MutationDef : Type where
  name : String
  outputAttr : Option String
  mroDicts : List (Dict String)
  argumentsAttr : Option (Dict ArgumentV)
  inputAttr : Option (Dict ArgumentV)
  hasMutate : Bool
deriving DecidableEq, Repr

/-- The output type recorded on the metadata: either an explicitly given
type (by name), or the mutation definition class itself (line 105,
`output = cls`). -/
inductive OutputType : Type where
  | explicitType (typeName : String)
  | selfType
deriving DecidableEq, Repr

/-- The resolver recorded on the metadata: either the explicitly supplied
one (identified by an id), or the generated validating wrapper around the
definition's `mutate` function, whose behaviour is `Graphene.resolver`. -/
inductive ResolverSpec : Type where
  | explicitResolver (id : Nat)
  | validating
deriving DecidableEq, Repr

/-- The two assertion failures of `__init_subclass_with_meta__`: a
non-interface value in `interfaces` (lines 95-97, carrying the class name
and the offending value's display string), and a missing `mutate` when no
resolver is given (line 128). -/
inductive InitError : Type where
  | interfaceAssert (clsName shown : String)
  | mutateAssert
deriving DecidableEq, Repr

/-- The message of the interface assertion, as formatted on lines 96-97. -/
def InitError.message : InitError → String
  | InitError.interfaceAssert clsName shown =>
      "All interfaces of " ++ clsName ++
        " must be a subclass of Interface. Received \"" ++ shown ++ "\"."
  | InitError.mutateAssert => "All mutations must define a mutate method in it"

/-- The fields of the metadata record (`MutationOptions`) that the builder
fills in, plus whether the deprecation warning for `Input` was emitted. -/
structure InitResult : Type where
  fields : Dict String
  interfaces : List IfaceArg
  output : OutputType
  resolver : ResolverSpec
  arguments : Dict ArgumentV
  warnedDeprecation : Bool
deriving DecidableEq, Repr

/-- The interface loop (lines 94-98): walk the declared interfaces in
order, failing at the first value that is not an `Interface` subclass,
otherwise `fields.update(interface._meta.fields)`. -/
def interfaceLoop (acc : Dict String) : List IfaceArg → Except String (Dict String)
  | [] => Except.ok acc
  | IfaceArg.bad shown :: _ => Except.error shown
  | IfaceArg.iface f :: rest => interfaceLoop (dictUpdate acc f) rest

/-- Truthiness of the `arguments` keyword (line 107, `if not arguments`):
`None` and the empty dict are both falsy in Python. -/
def argumentsTruthy (arguments : Option (Dict ArgumentV)) : Bool :=
  match arguments with
  | none => false
  | some d => !d.isEmpty

/-- The argument-resolution block (lines 107-124): an explicit truthy
`arguments` wins; otherwise the `Arguments` inner class; otherwise the
legacy `Input` inner class, with a deprecation warning; otherwise the
empty dict.  Returns the argument dict and whether the warning fired. -/
def resolveArguments (cls : MutationDef) (arguments : Option (Dict ArgumentV)) :
    Dict ArgumentV × Bool :=
  if argumentsTruthy arguments then (arguments.getD [], false)
  else
    match cls.argumentsAttr with
    | some d => (d, false)
    | none =>
        match cls.inputAttr with
        | some d => (d, true)
        | none => ([], false)

/-- Line 91: `output = output or getattr(cls, "Output", None)` — the
explicit `output` keyword wins, otherwise the `Output` inner class. -/
def effectiveOutput (cls : MutationDef) (outputArg : Option String) : Option String :=
  match outputArg with
  | some o => some o
  | none => cls.outputAttr

/-- Lines 102-104: the field set rebuilt from the class hierarchy when no
output is given — `fields.update(yank_fields_from_attrs(base.__dict__))`
for each `base` in `reversed(cls.__mro__)`, starting from `{}`. -/
def mroFields (mroDicts : List (Dict String)) : Dict String :=
  mroDicts.reverse.foldl dictUpdate []

/-- The first dict in the list (most derived class first) that binds the
key, and its value there: the specification of "a derived class's
declaration wins" for the mro merge. -/
def firstLookup (ds : List (Dict String)) (k : String) : Option String :=
  match ds with
  | [] => none
  | d :: rest => Option.or (dictGet d k) (firstLookup rest k)

/-- Lines 100-105, field half: when no output is given, the interface
fields accumulated on lines 94-98 are overwritten by `fields = {}` (line
102) and the set is rebuilt from the mro; when an output is given, the
interface merge stands. -/
def initFields (cls : MutationDef) (outputArg : Option String)
    (ifaceFields : Dict String) : Dict String :=
  match effectiveOutput cls outputArg with
  | some _ => ifaceFields
  | none => mroFields cls.mroDicts

/-- Lines 100-105, output half: the effective output if any, else the
definition class itself (line 105). -/
def initOutput (cls : MutationDef) (outputArg : Option String) : OutputType :=
  match effectiveOutput cls outputArg with
  | some o => OutputType.explicitType o
  | none => OutputType.selfType

/-- Lines 134-142: the metadata written on success.  A truthy (nonempty)
pre-existing `_meta.fields` is updated in place with the computed fields,
otherwise replaced by them (lines 134-137). -/
def initOk (cls : MutationDef) (interfaces : List IfaceArg)
    (outputArg : Option String) (argumentsArg : Option (Dict ArgumentV))
    (metaFields : Option (Dict String)) (ifaceFields : Dict String)
    (rspec : ResolverSpec) : InitResult :=
  { fields :=
      match metaFields with
      | some d =>
          if d.isEmpty then initFields cls outputArg ifaceFields
          else dictUpdate d (initFields cls outputArg ifaceFields)
      | none => initFields cls outputArg ifaceFields
    interfaces := interfaces
    output := initOutput cls outputArg
    resolver := rspec
    arguments := (resolveArguments cls argumentsArg).1
    warnedDeprecation := (resolveArguments cls argumentsArg).2 }

/-- Embedding of `Mutation.__init_subclass_with_meta__` (lines 78-144).

`metaFields` is the `fields` slot of an explicitly passed `_meta`
(`none` when no `_meta` is passed, so a fresh `MutationOptions` with
`fields = None` is created on line 89).  Mirrors the source control flow:

* line 91: `output = output or getattr(cls, "Output", None)`
  (`effectiveOutput`);
* lines 94-98: interface loop with the subclass assertion
  (`interfaceLoop`);
* lines 100-105: field set and output type (`initFields`, `initOutput`);
* lines 107-124: argument resolution (`resolveArguments`);
* lines 126-132: the `mutate` assertion when no resolver is supplied,
  else the validating wrapper;
* lines 134-142: writing the metadata (`initOk`). -/
def init_subclass_with_meta (cls : MutationDef) (interfaces : List IfaceArg)
    (resolverArg : Option Nat) (outputArg : Option String)
    (argumentsArg : Option (Dict ArgumentV)) (metaFields : Option (Dict String)) :
    Except InitError InitResult :=
  match interfaceLoop [] interfaces with
  | Except.error shown => Except.error (InitError.interfaceAssert cls.name shown)
  | Except.ok ifaceFields =>
      match resolverArg with
      | some r =>
          Except.ok (initOk cls interfaces outputArg argumentsArg metaFields
            ifaceFields (ResolverSpec.explicitResolver r))
      | none =>
          if cls.hasMutate then
            Except.ok (initOk cls interfaces outputArg argumentsArg metaFields
              ifaceFields ResolverSpec.validating)
          else Except.error InitError.mutateAssert

/-- A mounted field descriptor, as produced by `Mutation.Field` (lines
146-159). -/
structure FieldDescriptor : Type where
  ftype : OutputType
  args : Dict ArgumentV
  resolverSpec : ResolverSpec
  name : Option String
  description : Option String
  deprecationReason : Option String
  required : Bool
deriving DecidableEq, Repr

/-- Embedding of `Mutation.Field` (lines 146-159): bundles the metadata
into a field descriptor; `description or cls._meta.description` falls back
to the class description. -/
def mutationField (meta : InitResult) (clsDescription : Option String)
    (name description deprecationReason : Option String) (required : Bool) :
    FieldDescriptor :=
  { ftype := meta.output
    args := meta.arguments
    resolverSpec := meta.resolver
    name := name
    description := match description with
      | some d => some d
      | none => clsDescription
    deprecationReason := deprecationReason
    required := required }

/-! ### Concrete example definitions

Concrete mutation definitions used to instantiate the theorems below,
mirroring the docstring example of `Mutation` (lines 45-58) and the
scenarios described in the spec. -/

/-- An interface declaring a single field `node`. -/
def nodeIface : IfaceArg := IfaceArg.iface [("node", "Field(Node)")]

/-- A definition with an explicit output type via `Meta` and no fields of
its own. -/
def payloadCls : MutationDef :=
  { name := "AddNode", outputAttr := some "AddNodePayload", mroDicts := [[]]
    argumentsAttr := none, inputAttr := none, hasMutate := true }

/-- A definition with no output whose base class also declares `ok`, so
the mro merge must let the derived declaration win. -/
def derivedCls : MutationDef :=
  { name := "DerivedMutation", outputAttr := none
    mroDicts := [[("ok", "Boolean()")], [("base", "String()"), ("ok", "BaseBoolean()")]]
    argumentsAttr := none, inputAttr := none, hasMutate := true }

/-- A definition with an `Output` inner class and a scrapable class
attribute that must not end up in the field set. -/
def outputInnerCls : MutationDef :=
  { name := "WithOutput", outputAttr := some "Output"
    mroDicts := [[("stray", "Boolean()")]]
    argumentsAttr := none, inputAttr := none, hasMutate := true }

/-- A definition using only the legacy `Input` inner class. -/
def inputOnlyCls : MutationDef :=
  { name := "LegacyInput", outputAttr := none, mroDicts := [[]]
    argumentsAttr := none, inputAttr := some [("name", { validators := [] })]
    hasMutate := true }

/-- A definition declaring both `Arguments` and a legacy `Input`. -/
def bothArgsCls : MutationDef :=
  { name := "BothArgs", outputAttr := none, mroDicts := [[]]
    argumentsAttr := some [("fromArguments", { validators := [] })]
    inputAttr := some [("fromInput", { validators := [] })]
    hasMutate := true }

/-- A definition with a `mutate` method and nothing else. -/
def plainCls : MutationDef :=
  { name := "Plain", outputAttr := none, mroDicts := [[]]
    argumentsAttr := none, inputAttr := none, hasMutate := true }

/-- A definition with neither a `mutate` method nor any other
declaration. -/
def noMutateCls : MutationDef :=
  { name := "NoMutate", outputAttr := none, mroDicts := [[]]
    argumentsAttr := none, inputAttr := none, hasMutate := false }

/-- The `CreatePerson` definition of the docstring example (lines 45-58):
one string argument `name`, fields `ok` and `person`, a `mutate` method,
no explicit output. -/
def CreatePerson : MutationDef :=
  { name := "CreatePerson", outputAttr := none
    mroDicts := [[("ok", "Boolean()"), ("person", "Field(Person)")], [], []]
    argumentsAttr := some [("name", { validators := [] })]
    inputAttr := none, hasMutate := true }

/-- An argument object exposing a `validate_email` attribute. -/
def emailArgument : ArgumentV := { validators := ["email"] }

/-- Metadata produced for `plainCls` with interface `nodeIface` and no
output: the interface field is dropped. -/
def plainIfaceRes : InitResult :=
  { fields := [], interfaces := [nodeIface], output := OutputType.selfType,
    resolver := ResolverSpec.validating, arguments := [],
    warnedDeprecation := false }

/-- Metadata produced for `payloadCls` with interface `nodeIface`. -/
def payloadRes : InitResult :=
  { fields := [("node", "Field(Node)")], interfaces := [nodeIface],
    output := OutputType.explicitType "AddNodePayload",
    resolver := ResolverSpec.validating, arguments := [],
    warnedDeprecation := false }

/-- Metadata produced for `derivedCls` with no interfaces. -/
def derivedRes : InitResult :=
  { fields := [("base", "String()"), ("ok", "Boolean()")], interfaces := [],
    output := OutputType.selfType, resolver := ResolverSpec.validating,
    arguments := [], warnedDeprecation := false }

/-- Metadata produced for `outputInnerCls` with interface `nodeIface`. -/
def outputInnerRes : InitResult :=
  { fields := [("node", "Field(Node)")], interfaces := [nodeIface],
    output := OutputType.explicitType "Output",
    resolver := ResolverSpec.validating, arguments := [],
    warnedDeprecation := false }

/-- Metadata produced for `inputOnlyCls`: arguments from `Input`, warning
emitted. -/
def inputOnlyRes : InitResult :=
  { fields := [], interfaces := [], output := OutputType.selfType,
    resolver := ResolverSpec.validating,
    arguments := [("name", { validators := [] })],
    warnedDeprecation := true }

/-- Metadata produced for `bothArgsCls`: arguments from `Arguments`, the
legacy `Input` ignored, no warning. -/
def bothArgsRes : InitResult :=
  { fields := [], interfaces := [], output := OutputType.selfType,
    resolver := ResolverSpec.validating,
    arguments := [("fromArguments", { validators := [] })],
    warnedDeprecation := false }

/-! ### Association-list lemmas -/

theorem dictGet_dictInsert {α : Type} (d : Dict α) (k : String) (v : α) (k' : String) :
    dictGet (dictInsert d k v) k' = if k = k' then some v else dictGet d k' := by
  induction d with
  | nil => simp [dictInsert, dictGet]
  | cons hd tl ih =>
    obtain ⟨k0, v0⟩ := hd
    simp only [dictInsert]
    by_cases h0 : k0 = k
    · subst h0
      by_cases h1 : k0 = k' <;> simp [dictGet, h1]
    · rw [if_neg h0]
      by_cases h1 : k0 = k'
      · subst h1
        have hk : ¬ k = k0 := fun h => h0 h.symm
        simp [dictGet, hk]
      · simp [dictGet, h1, ih]

theorem dictGet_isSome_iff {α : Type} (d : Dict α) (k : String) :
    (dictGet d k).isSome = true ↔ k ∈ dictKeys d := by
  induction d with
  | nil => simp [dictGet, dictKeys]
  | cons hd tl ih =>
    obtain ⟨k0, v0⟩ := hd
    by_cases h : k0 = k
    · subst h
      simp [dictGet, dictKeys]
    · have h' : ¬ k = k0 := fun hh => h hh.symm
      simp [dictGet, dictKeys, h, h', ih]

theorem dictGet_eq_none_of_not_mem {α : Type} (d : Dict α) (k : String)
    (h : k ∉ dictKeys d) : dictGet d k = none := by
  cases hc : dictGet d k with
  | none => rfl
  | some v =>
      exact absurd ((dictGet_isSome_iff d k).mp (by simp [hc])) h

theorem mem_keys_dictInsert {α : Type} (d : Dict α) (k : String) (v : α) (k' : String) :
    k' ∈ dictKeys (dictInsert d k v) ↔ k = k' ∨ k' ∈ dictKeys d := by
  rw [← dictGet_isSome_iff, ← dictGet_isSome_iff, dictGet_dictInsert]
  by_cases h : k = k' <;> simp [h]

theorem mem_keys_dictUpdate {α : Type} (d e : Dict α) (k : String) :
    k ∈ dictKeys (dictUpdate d e) ↔ k ∈ dictKeys e ∨ k ∈ dictKeys d := by
  induction e generalizing d with
  | nil => simp [dictUpdate, dictKeys]
  | cons hd tl ih =>
    obtain ⟨k0, v0⟩ := hd
    have hstep : dictUpdate d ((k0, v0) :: tl) = dictUpdate (dictInsert d k0 v0) tl := rfl
    have hkeys : dictKeys ((k0, v0) :: tl) = k0 :: dictKeys tl := rfl
    rw [hstep, ih, hkeys]
    simp only [mem_keys_dictInsert, List.mem_cons]
    constructor
    · rintro (h | h | h)
      · exact Or.inl (Or.inr h)
      · exact Or.inl (Or.inl h.symm)
      · exact Or.inr h
    · rintro ((h | h) | h)
      · exact Or.inr (Or.inl h.symm)
      · exact Or.inl h
      · exact Or.inr (Or.inr h)

theorem dictGet_dictUpdate {α : Type} (d e : Dict α) (k : String)
    (h : (dictKeys e).Nodup) :
    dictGet (dictUpdate d e) k = Option.or (dictGet e k) (dictGet d k) := by
  induction e generalizing d with
  | nil => simp [dictUpdate, dictGet, Option.or]
  | cons hd tl ih =>
    obtain ⟨k0, v0⟩ := hd
    have hcons : k0 ∉ dictKeys tl ∧ (dictKeys tl).Nodup := by
      simpa [dictKeys, List.nodup_cons] using h
    have hstep : dictUpdate d ((k0, v0) :: tl) = dictUpdate (dictInsert d k0 v0) tl := rfl
    rw [hstep, ih _ hcons.2]
    by_cases hk : k0 = k
    · subst hk
      have htl : dictGet tl k0 = none := dictGet_eq_none_of_not_mem _ _ hcons.1
      simp [dictGet, htl, dictGet_dictInsert, Option.or]
    · simp [dictGet, hk, dictGet_dictInsert, Option.or]

theorem dictGet_mroFields (ds : List (Dict String)) (k : String)
    (h : ∀ d ∈ ds, (dictKeys d).Nodup) :
    dictGet (mroFields ds) k = firstLookup ds k := by
  induction ds with
  | nil => rfl
  | cons d rest ih =>
    have hstep : mroFields (d :: rest) = dictUpdate (mroFields rest) d := by
      simp [mroFields, List.foldl_append]
    rw [hstep, dictGet_dictUpdate _ _ _ (h d (List.mem_cons_self d rest)),
      ih (fun d' hd' => h d' (List.mem_cons_of_mem _ hd'))]
    rfl

/-! ### Interface-loop lemmas -/

theorem interfaceLoop_ok_mem (l : List IfaceArg) (acc F : Dict String) (k : String)
    (h : interfaceLoop acc l = Except.ok F)
    (hk : k ∈ dictKeys acc ∨ ∃ f, IfaceArg.iface f ∈ l ∧ k ∈ dictKeys f) :
    k ∈ dictKeys F := by
  induction l generalizing acc with
  | nil =>
    have hF : F = acc := by
      simpa [interfaceLoop] using h.symm
    subst hF
    rcases hk with hk | ⟨f, hf, _⟩
    · exact hk
    · simp at hf
  | cons hd tl ih =>
    cases hd with
    | bad s => simp [interfaceLoop] at h
    | iface f0 =>
      refine ih (dictUpdate acc f0) (by simpa [interfaceLoop] using h) ?_
      rcases hk with hk | ⟨f, hf, hkf⟩
      · exact Or.inl ((mem_keys_dictUpdate acc f0 k).mpr (Or.inr hk))
      · rcases List.mem_cons.mp hf with hf | hf
        · have hff : f = f0 := by injection hf
          subst hff
          exact Or.inl ((mem_keys_dictUpdate acc f k).mpr (Or.inl hkf))
        · exact Or.inr ⟨f, hf, hkf⟩

theorem interfaceLoop_error_of_bad (l : List IfaceArg) (acc : Dict String)
    (h : ∃ s, IfaceArg.bad s ∈ l) :
    ∃ s, IfaceArg.bad s ∈ l ∧ interfaceLoop acc l = Except.error s := by
  induction l generalizing acc with
  | nil =>
    obtain ⟨s, hs⟩ := h
    simp at hs
  | cons hd tl ih =>
    cases hd with
    | bad s => exact ⟨s, List.mem_cons_self _ _, rfl⟩
    | iface f =>
      have h' : ∃ s, IfaceArg.bad s ∈ tl := by
        obtain ⟨s, hs⟩ := h
        rcases List.mem_cons.mp hs with hs | hs
        · exact absurd hs (by simp)
        · exact ⟨s, hs⟩
      obtain ⟨s, hs, he⟩ := ih (dictUpdate acc f) h'
      exact ⟨s, List.mem_cons_of_mem _ hs, by simpa [interfaceLoop] using he⟩

/-! ### Validator-run lemmas -/

theorem run_validators_ok_of_dict_shaped (arguments : Dict ArgumentV)
    (kwargs : Dict ArgVal)
    (h : arguments.all (fun p => ((dictGet kwargs p.1).map ArgVal.isDict).getD false) = true) :
    ∃ evs, run_validators arguments kwargs = Except.ok evs := by
  induction arguments with
  | nil => exact ⟨[], rfl⟩
  | cons hd tl ih =>
    obtain ⟨a0, arg0⟩ := hd
    have hall := List.all_eq_true.mp h
    have h0 : ((dictGet kwargs a0).map ArgVal.isDict).getD false = true :=
      hall _ (List.mem_cons_self _ _)
    have htl : tl.all (fun p => ((dictGet kwargs p.1).map ArgVal.isDict).getD false) = true :=
      List.all_eq_true.mpr fun p hp => hall p (List.mem_cons_of_mem _ hp)
    obtain ⟨evs, hevs⟩ := ih htl
    cases hkw : dictGet kwargs a0 with
    | none => rw [hkw] at h0; simp at h0
    | some v =>
      cases v with
      | scalar s => rw [hkw] at h0; simp [ArgVal.isDict] at h0
      | dict entries =>
        exact ⟨argValidatorEvents a0 arg0 entries ++ evs, by
          simp [run_validators, hkw, hevs]⟩

theorem run_validators_fires (arguments : Dict ArgumentV) (kwargs : Dict ArgVal)
    (evs : List Event) (argName : String) (arg : ArgumentV) (entries : Dict String)
    (k v : String)
    (hrun : run_validators arguments kwargs = Except.ok evs)
    (hmem : (argName, arg) ∈ arguments)
    (hkw : dictGet kwargs argName = some (ArgVal.dict entries))
    (hsub : (k, v) ∈ entries)
    (hval : arg.validators.contains k = true) :
    Event.validate argName k v ∈ evs := by
  induction arguments generalizing evs with
  | nil => simp at hmem
  | cons hd tl ih =>
    obtain ⟨a0, arg0⟩ := hd
    cases hkw0 : dictGet kwargs a0 with
    | none => simp [run_validators, hkw0] at hrun
    | some v0 =>
      cases v0 with
      | scalar s => simp [run_validators, hkw0] at hrun
      | dict entries0 =>
        cases hrest : run_validators tl kwargs with
        | error e => simp [run_validators, hkw0, hrest] at hrun
        | ok evs' =>
          have hevs : evs = argValidatorEvents a0 arg0 entries0 ++ evs' := by
            have := hrun
            simp [run_validators, hkw0, hrest] at this
            exact this.symm
          subst hevs
          rcases List.mem_cons.mp hmem with hmem | hmem
          · have ha : argName = a0 := congrArg Prod.fst hmem
            have harg : arg = arg0 := congrArg Prod.snd hmem
            subst ha; subst harg
            have hent : entries0 = entries := by
              rw [hkw0] at hkw
              injection hkw with hkw'
              injection hkw'
            subst hent
            have hk : k ∈ arg.validators := List.mem_of_elem_eq_true hval
            refine List.mem_append_left _ (List.mem_filterMap.mpr ⟨(k, v), hsub, ?_⟩)
            simp [hk]
          · exact List.mem_append_right _ (ih evs' hrest hmem)

theorem run_validators_events_from_validators (arguments : Dict ArgumentV)
    (kwargs : Dict ArgVal) (evs : List Event) (argName k v : String)
    (hrun : run_validators arguments kwargs = Except.ok evs)
    (hev : Event.validate argName k v ∈ evs) :
    ∃ arg, (argName, arg) ∈ arguments ∧ arg.validators.contains k = true := by
  induction arguments generalizing evs with
  | nil =>
    have : evs = [] := by simpa [run_validators] using hrun.symm
    subst this
    simp at hev
  | cons hd tl ih =>
    obtain ⟨a0, arg0⟩ := hd
    cases hkw0 : dictGet kwargs a0 with
    | none => simp [run_validators, hkw0] at hrun
    | some v0 =>
      cases v0 with
      | scalar s => simp [run_validators, hkw0] at hrun
      | dict entries0 =>
        cases hrest : run_validators tl kwargs with
        | error e => simp [run_validators, hkw0, hrest] at hrun
        | ok evs' =>
          have hevs : evs = argValidatorEvents a0 arg0 entries0 ++ evs' := by
            have := hrun
            simp [run_validators, hkw0, hrest] at this
            exact this.symm
          subst hevs
          rcases List.mem_append.mp hev with hev | hev
          · obtain ⟨⟨k1, v1⟩, _, hf⟩ := List.mem_filterMap.mp hev
            by_cases hc : arg0.validators.contains k1 = true
            · rw [if_pos hc] at hf
              injection hf with hf2
              injection hf2 with h1 h2 h3
              subst h1; subst h2
              exact ⟨arg0, List.mem_cons_self _ _, hc⟩
            · rw [if_neg hc] at hf
              exact absurd hf (by simp)
          · obtain ⟨arg, hmem, hc⟩ := ih evs' hrest hev
            exact ⟨arg, List.mem_cons_of_mem _ hmem, hc⟩

theorem run_validators_error_of_missing_or_scalar (arguments : Dict ArgumentV)
    (kwargs : Dict ArgVal)
    (h : ∃ p, p ∈ arguments ∧
          (dictGet kwargs p.1 = none ∨ ∃ s, dictGet kwargs p.1 = some (ArgVal.scalar s))) :
    ∃ e, run_validators arguments kwargs = Except.error e := by
  induction arguments with
  | nil =>
    obtain ⟨p, hp, _⟩ := h
    simp at hp
  | cons hd tl ih =>
    obtain ⟨a0, arg0⟩ := hd
    cases hkw0 : dictGet kwargs a0 with
    | none => exact ⟨RunError.keyError a0, by simp [run_validators, hkw0]⟩
    | some v0 =>
      cases v0 with
      | scalar s => exact ⟨RunError.attributeError a0, by simp [run_validators, hkw0]⟩
      | dict entries0 =>
        have h' : ∃ p, p ∈ tl ∧
            (dictGet kwargs p.1 = none ∨ ∃ s, dictGet kwargs p.1 = some (ArgVal.scalar s)) := by
          obtain ⟨p, hp, hbad⟩ := h
          rcases List.mem_cons.mp hp with hp | hp
          · subst hp
            rcases hbad with hbad | ⟨s, hbad⟩ <;> rw [hkw0] at hbad <;> simp at hbad
          · exact ⟨p, hp, hbad⟩
        obtain ⟨e, he⟩ := ih h'
        exact ⟨e, by simp [run_validators, hkw0, he]⟩

theorem mem_keys_mroFields (ds : List (Dict String)) (k : String) :
    k ∈ dictKeys (mroFields ds) ↔ ∃ d ∈ ds, k ∈ dictKeys d := by
  induction ds with
  | nil => simp [mroFields, dictKeys]
  | cons d rest ih =>
    have hstep : mroFields (d :: rest) = dictUpdate (mroFields rest) d := by
      simp [mroFields, List.foldl_append]
    rw [hstep, mem_keys_dictUpdate, ih]
    constructor
    · rintro (h | ⟨d', hd', hk⟩)
      · exact ⟨d, List.mem_cons_self _ _, h⟩
      · exact ⟨d', List.mem_cons_of_mem _ hd', hk⟩
    · rintro ⟨d', hd', hk⟩
      rcases List.mem_cons.mp hd' with h | h
      · subst h; exact Or.inl hk
      · exact Or.inr ⟨d', h, hk⟩

/-! ### Builder inversion and evaluation lemmas -/

theorem init_ok_inversion (cls : MutationDef) (interfaces : List IfaceArg)
    (resolverArg : Option Nat) (outputArg : Option String)
    (argumentsArg : Option (Dict ArgumentV)) (metaFields : Option (Dict String))
    (res : InitResult)
    (hrun : init_subclass_with_meta cls interfaces resolverArg outputArg argumentsArg
      metaFields = Except.ok res) :
    ∃ ifaceFields, interfaceLoop [] interfaces = Except.ok ifaceFields ∧
      ((∃ r, resolverArg = some r ∧
          res = initOk cls interfaces outputArg argumentsArg metaFields ifaceFields
            (ResolverSpec.explicitResolver r)) ∨
        (resolverArg = none ∧ cls.hasMutate = true ∧
          res = initOk cls interfaces outputArg argumentsArg metaFields ifaceFields
            ResolverSpec.validating)) := by
  unfold init_subclass_with_meta at hrun
  split at hrun
  · simp at hrun
  · rename_i ifaceFields hI
    split at hrun
    · rename_i r
      injection hrun with h
      exact ⟨ifaceFields, hI, Or.inl ⟨r, rfl, h.symm⟩⟩
    · split at hrun
      · rename_i hmut
        injection hrun with h
        exact ⟨ifaceFields, hI, Or.inr ⟨rfl, hmut, h.symm⟩⟩
      · simp at hrun

theorem init_error_of_no_mutate (cls : MutationDef) (interfaces : List IfaceArg)
    (outputArg : Option String) (argumentsArg : Option (Dict ArgumentV))
    (metaFields : Option (Dict String)) (ifaceFields : Dict String)
    (hI : interfaceLoop [] interfaces = Except.ok ifaceFields)
    (hmut : cls.hasMutate = false) :
    init_subclass_with_meta cls interfaces none outputArg argumentsArg metaFields =
      Except.error InitError.mutateAssert := by
  unfold init_subclass_with_meta
  rw [hI, hmut]
  simp

theorem init_ok_of_mutate (cls : MutationDef) (interfaces : List IfaceArg)
    (outputArg : Option String) (argumentsArg : Option (Dict ArgumentV))
    (metaFields : Option (Dict String)) (ifaceFields : Dict String)
    (hI : interfaceLoop [] interfaces = Except.ok ifaceFields)
    (hmut : cls.hasMutate = true) :
    init_subclass_with_meta cls interfaces none outputArg argumentsArg metaFields =
      Except.ok (initOk cls interfaces outputArg argumentsArg metaFields ifaceFields
        ResolverSpec.validating) := by
  unfold init_subclass_with_meta
  rw [hI, hmut]
  simp

/-! ### Claim theorems -/

/-- Claim C1, counterexample: the claim asserts interface fields appear in
the merged field set regardless of whether an explicit output type is
given.  It is false when no output type is given: for a definition with no
output and a declared interface with field `node`, line 102 resets
`fields = {}` after the interface merge, so the recorded field set is
empty and does not contain `node`. -/
theorem interface_fields_dropped_without_output :
    init_subclass_with_meta plainCls [nodeIface] none none none none =
      Except.ok plainIfaceRes ∧
    nodeIface = IfaceArg.iface [("node", "Field(Node)")] ∧
    "node" ∈ dictKeys [("node", "Field(Node)")] ∧
    "node" ∉ dictKeys plainIfaceRes.fields := by
  refine ⟨rfl, rfl, ?_, ?_⟩
  · simp [dictKeys]
  · simp [plainIfaceRes, dictKeys]

/-- Claim C1 (amended): for every mutation definition declaring
interfaces, every field from every declared interface appears in the
merged field set recorded on the produced type's metadata when an
explicit output type is given; when no explicit output type is given, the
recorded field set is rebuilt solely from the definition's class
hierarchy, discarding the interface-merged fields. -/
theorem interface_field_merge_requires_explicit_output
    (cls : MutationDef) (interfaces : List IfaceArg) (resolverArg : Option Nat)
    (outputArg : Option String) (argumentsArg : Option (Dict ArgumentV))
    (res : InitResult) (f : Dict String) (k : String)
    (hrun : init_subclass_with_meta cls interfaces resolverArg outputArg argumentsArg none =
      Except.ok res) :
    ((effectiveOutput cls outputArg).isSome = true →
      IfaceArg.iface f ∈ interfaces → k ∈ dictKeys f → k ∈ dictKeys res.fields) ∧
    (effectiveOutput cls outputArg = none → res.fields = mroFields cls.mroDicts) := by
  obtain ⟨F, hIF, hcase⟩ := init_ok_inversion _ _ _ _ _ _ _ hrun
  have hres : res.fields = initFields cls outputArg F := by
    rcases hcase with ⟨r, _, hr⟩ | ⟨_, _, hr⟩ <;> subst hr <;> rfl
  constructor
  · intro hsome hf hk
    obtain ⟨o, ho⟩ := Option.isSome_iff_exists.mp hsome
    rw [hres]
    simp only [initFields, ho]
    exact interfaceLoop_ok_mem interfaces [] F k hIF (Or.inr ⟨f, hf, hk⟩)
  · intro hnone
    rw [hres]
    simp [initFields, hnone]

/-- Claim C1 witness: instantiation on a definition with an explicit
output type and one interface field `node`, which does appear in the
recorded field set. -/
theorem interface_field_merge_requires_explicit_output_witness :
    ((effectiveOutput payloadCls none).isSome = true →
      IfaceArg.iface [("node", "Field(Node)")] ∈ [nodeIface] →
      "node" ∈ dictKeys [("node", "Field(Node)")] →
      "node" ∈ dictKeys payloadRes.fields) ∧
    (effectiveOutput payloadCls none = none →
      payloadRes.fields = mroFields payloadCls.mroDicts) :=
  interface_field_merge_requires_explicit_output payloadCls [nodeIface] none none none
    payloadRes [("node", "Field(Node)")] "node" rfl

/-- Claim C2: for every generated validating resolver, for every declared
argument name present in the keyword payload and every sub-key of its
(dict-shaped) value, if the argument object has a `validate_<subkey>`
attribute then that validator is called with the corresponding sub-value
before `mutate` runs (its event precedes the final `mutateCall`); if no
such attribute exists, no call is made (every validator event comes from
an existing validator) and no error is raised (the run succeeds and
`mutate`'s result is returned). -/
theorem validating_resolver_dispatch
    (arguments : Dict ArgumentV) (kwargs : Dict ArgVal) (mutate : Dict ArgVal → String)
    (hshape : arguments.all
      (fun p => ((dictGet kwargs p.1).map ArgVal.isDict).getD false) = true) :
    ∃ evs, resolver arguments mutate kwargs =
        Except.ok (evs ++ [Event.mutateCall], mutate kwargs) ∧
      (∀ argName arg entries k v, (argName, arg) ∈ arguments →
        dictGet kwargs argName = some (ArgVal.dict entries) → (k, v) ∈ entries →
        arg.validators.contains k = true → Event.validate argName k v ∈ evs) ∧
      (∀ argName k v, Event.validate argName k v ∈ evs →
        ∃ arg, (argName, arg) ∈ arguments ∧ arg.validators.contains k = true) := by
  obtain ⟨evs, hevs⟩ := run_validators_ok_of_dict_shaped arguments kwargs hshape
  refine ⟨evs, by simp [resolver, hevs], ?_, ?_⟩
  · intro argName arg entries k v hmem hkw hsub hval
    exact run_validators_fires arguments kwargs evs argName arg entries k v
      hevs hmem hkw hsub hval
  · intro argName k v hev
    exact run_validators_events_from_validators arguments kwargs evs argName k v hevs hev

/-- Claim C2 witness: an argument object exposing `validate_email`,
invoked with a payload whose value contains the key `email`. -/
theorem validating_resolver_dispatch_witness :
    ∃ evs, resolver [("person", emailArgument)] (fun _ => "done")
        [("person", ArgVal.dict [("email", "a@b.c")])] =
        Except.ok (evs ++ [Event.mutateCall], "done") ∧
      (∀ argName arg entries k v, (argName, arg) ∈ [("person", emailArgument)] →
        dictGet [("person", ArgVal.dict [("email", "a@b.c")])] argName =
          some (ArgVal.dict entries) → (k, v) ∈ entries →
        arg.validators.contains k = true → Event.validate argName k v ∈ evs) ∧
      (∀ argName k v, Event.validate argName k v ∈ evs →
        ∃ arg, (argName, arg) ∈ [("person", emailArgument)] ∧
          arg.validators.contains k = true) :=
  validating_resolver_dispatch [("person", emailArgument)]
    [("person", ArgVal.dict [("email", "a@b.c")])] (fun _ => "done") rfl

/-- Claim C3: for every mutation definition omitting an output type, the
produced output type is the definition class itself, and the field set is
collected from the definition and its ancestors, most-base-class fields
applied first and most-derived last, so a derived declaration wins on a
name collision (lookup agrees with the first mro entry binding the key). -/
theorem no_output_fields_from_mro
    (cls : MutationDef) (interfaces : List IfaceArg) (resolverArg : Option Nat)
    (argumentsArg : Option (Dict ArgumentV)) (res : InitResult)
    (hattr : cls.outputAttr = none)
    (hnd : ∀ d ∈ cls.mroDicts, (dictKeys d).Nodup)
    (hrun : init_subclass_with_meta cls interfaces resolverArg none argumentsArg none =
      Except.ok res) :
    res.output = OutputType.selfType ∧
    res.fields = mroFields cls.mroDicts ∧
    (∀ k, k ∈ dictKeys res.fields ↔ ∃ d ∈ cls.mroDicts, k ∈ dictKeys d) ∧
    (∀ k, dictGet res.fields k = firstLookup cls.mroDicts k) := by
  obtain ⟨F, hIF, hcase⟩ := init_ok_inversion _ _ _ _ _ _ _ hrun
  have hnone : effectiveOutput cls none = none := by simp [effectiveOutput, hattr]
  have hrf : res.fields = mroFields cls.mroDicts := by
    rcases hcase with ⟨r, _, hr⟩ | ⟨_, _, hr⟩ <;> subst hr <;>
      simp [initOk, initFields, hnone]
  have hro : res.output = OutputType.selfType := by
    rcases hcase with ⟨r, _, hr⟩ | ⟨_, _, hr⟩ <;> subst hr <;>
      simp [initOk, initOutput, hnone]
  refine ⟨hro, hrf, ?_, ?_⟩
  · intro k
    rw [hrf]
    exact mem_keys_mroFields _ _
  · intro k
    rw [hrf]
    exact dictGet_mroFields _ _ hnd

/-- Claim C3 witness: a derived definition redeclaring `ok` over a base
class declaring `base` and `ok`; the merged set binds `ok` to the derived
declaration. -/
theorem no_output_fields_from_mro_witness :
    derivedRes.output = OutputType.selfType ∧
    derivedRes.fields = mroFields derivedCls.mroDicts ∧
    (∀ k, k ∈ dictKeys derivedRes.fields ↔ ∃ d ∈ derivedCls.mroDicts, k ∈ dictKeys d) ∧
    (∀ k, dictGet derivedRes.fields k = firstLookup derivedCls.mroDicts k) :=
  no_output_fields_from_mro derivedCls [] none none derivedRes rfl (by decide) rfl

/-- Claim C4: for every mutation definition supplying an explicit output
type (via the `output` meta keyword or an `Output` inner class), the
produced field's output type equals that type, and the recorded field set
is exactly the interface merge — no fields scraped from the definition's
class attributes are added. -/
theorem explicit_output_no_scraped_fields
    (cls : MutationDef) (interfaces : List IfaceArg) (resolverArg : Option Nat)
    (outputArg : Option String) (argumentsArg : Option (Dict ArgumentV))
    (res : InitResult) (o : String) (ifaceFields : Dict String)
    (ho : effectiveOutput cls outputArg = some o)
    (hI : interfaceLoop [] interfaces = Except.ok ifaceFields)
    (hrun : init_subclass_with_meta cls interfaces resolverArg outputArg argumentsArg none =
      Except.ok res) :
    res.output = OutputType.explicitType o ∧ res.fields = ifaceFields ∧
    (∀ cd n d dr rq, (mutationField res cd n d dr rq).ftype =
      OutputType.explicitType o) := by
  obtain ⟨F, hIF, hcase⟩ := init_ok_inversion _ _ _ _ _ _ _ hrun
  have hF : F = ifaceFields := by
    rw [hI] at hIF
    injection hIF with h
    exact h.symm
  subst hF
  have hro : res.output = OutputType.explicitType o := by
    rcases hcase with ⟨r, _, hr⟩ | ⟨_, _, hr⟩ <;> subst hr <;>
      simp [initOk, initOutput, ho]
  have hrf : res.fields = F := by
    rcases hcase with ⟨r, _, hr⟩ | ⟨_, _, hr⟩ <;> subst hr <;>
      simp [initOk, initFields, ho]
  exact ⟨hro, hrf, fun cd n d dr rq => by simp [mutationField, hro]⟩

/-- Claim C4 witness: a definition with an `Output` inner class and a
stray class attribute; the produced type is the explicit output and the
field set holds only the interface field. -/
theorem explicit_output_no_scraped_fields_witness :
    outputInnerRes.output = OutputType.explicitType "Output" ∧
    outputInnerRes.fields = [("node", "Field(Node)")] ∧
    (∀ cd n d dr rq, (mutationField outputInnerRes cd n d dr rq).ftype =
      OutputType.explicitType "Output") :=
  explicit_output_no_scraped_fields outputInnerCls [nodeIface] none none none
    outputInnerRes "Output" [("node", "Field(Node)")] rfl rfl rfl

/-- Claim C5: for every mutation definition without explicit (truthy)
meta arguments, the produced arguments come from the `Arguments` inner
class when it exists (no warning); from the legacy `Input` inner class
when only it exists, with the deprecation warning emitted; and are empty
when neither exists. -/
theorem arguments_resolution
    (cls : MutationDef) (interfaces : List IfaceArg) (resolverArg : Option Nat)
    (outputArg : Option String) (argumentsArg : Option (Dict ArgumentV))
    (metaFields : Option (Dict String)) (res : InitResult)
    (hargs : argumentsTruthy argumentsArg = false)
    (hrun : init_subclass_with_meta cls interfaces resolverArg outputArg argumentsArg
      metaFields = Except.ok res) :
    (∀ d, cls.argumentsAttr = some d →
      res.arguments = d ∧ res.warnedDeprecation = false) ∧
    (cls.argumentsAttr = none → ∀ d, cls.inputAttr = some d →
      res.arguments = d ∧ res.warnedDeprecation = true) ∧
    (cls.argumentsAttr = none → cls.inputAttr = none →
      res.arguments = [] ∧ res.warnedDeprecation = false) := by
  obtain ⟨F, hIF, hcase⟩ := init_ok_inversion _ _ _ _ _ _ _ hrun
  have hres : res.arguments = (resolveArguments cls argumentsArg).1 ∧
      res.warnedDeprecation = (resolveArguments cls argumentsArg).2 := by
    rcases hcase with ⟨r, _, hr⟩ | ⟨_, _, hr⟩ <;> subst hr <;> exact ⟨rfl, rfl⟩
  refine ⟨?_, ?_, ?_⟩
  · intro d hd
    rw [hres.1, hres.2]
    simp [resolveArguments, hargs, hd]
  · intro hA d hd
    rw [hres.1, hres.2]
    simp [resolveArguments, hargs, hA, hd]
  · intro hA hI2
    rw [hres.1, hres.2]
    simp [resolveArguments, hargs, hA, hI2]

/-- Claim C5 witness: a definition using only the legacy `Input` inner
class gets its arguments from it and the deprecation warning fires. -/
theorem arguments_resolution_witness :
    (∀ d, inputOnlyCls.argumentsAttr = some d →
      inputOnlyRes.arguments = d ∧ inputOnlyRes.warnedDeprecation = false) ∧
    (inputOnlyCls.argumentsAttr = none → ∀ d, inputOnlyCls.inputAttr = some d →
      inputOnlyRes.arguments = d ∧ inputOnlyRes.warnedDeprecation = true) ∧
    (inputOnlyCls.argumentsAttr = none → inputOnlyCls.inputAttr = none →
      inputOnlyRes.arguments = [] ∧ inputOnlyRes.warnedDeprecation = false) :=
  arguments_resolution inputOnlyCls [] none none none none inputOnlyRes rfl rfl

/-- Claim C6: for every mutation definition passing the interface
assertions, supplying neither an explicit resolver nor a `mutate`
function makes construction fail with the missing-`mutate` assertion
error, while having a `mutate` function and no resolver makes
construction succeed with `mutate` wrapped in the generated validating
resolver. -/
theorem mutate_required_without_resolver
    (cls : MutationDef) (interfaces : List IfaceArg) (outputArg : Option String)
    (argumentsArg : Option (Dict ArgumentV)) (metaFields : Option (Dict String))
    (ifaceFields : Dict String)
    (hI : interfaceLoop [] interfaces = Except.ok ifaceFields) :
    (cls.hasMutate = false →
      init_subclass_with_meta cls interfaces none outputArg argumentsArg metaFields =
        Except.error InitError.mutateAssert) ∧
    (cls.hasMutate = true →
      init_subclass_with_meta cls interfaces none outputArg argumentsArg metaFields =
        Except.ok (initOk cls interfaces outputArg argumentsArg metaFields ifaceFields
          ResolverSpec.validating) ∧
      (initOk cls interfaces outputArg argumentsArg metaFields ifaceFields
          ResolverSpec.validating).resolver = ResolverSpec.validating) :=
  ⟨fun hm => init_error_of_no_mutate _ _ _ _ _ _ hI hm,
    fun hm => ⟨init_ok_of_mutate _ _ _ _ _ _ hI hm, rfl⟩⟩

/-- Claim C6 witness: a definition with no `mutate` and no resolver fails
with the missing-`mutate` assertion. -/
theorem mutate_required_without_resolver_witness :
    (noMutateCls.hasMutate = false →
      init_subclass_with_meta noMutateCls [] none none none none =
        Except.error InitError.mutateAssert) ∧
    (noMutateCls.hasMutate = true →
      init_subclass_with_meta noMutateCls [] none none none none =
        Except.ok (initOk noMutateCls [] none none none []
          ResolverSpec.validating) ∧
      (initOk noMutateCls [] none none none []
          ResolverSpec.validating).resolver = ResolverSpec.validating) :=
  mutate_required_without_resolver noMutateCls [] none none none [] rfl

/-- Claim C7: for every mutation definition whose declared interfaces
include a non-interface value, construction fails with an assertion error
carrying the mutation class name and the offending value, rendered as the
message of lines 96-97. -/
theorem non_interface_assertion
    (cls : MutationDef) (interfaces : List IfaceArg) (resolverArg : Option Nat)
    (outputArg : Option String) (argumentsArg : Option (Dict ArgumentV))
    (metaFields : Option (Dict String))
    (h : ∃ shown, IfaceArg.bad shown ∈ interfaces) :
    ∃ shown, IfaceArg.bad shown ∈ interfaces ∧
      init_subclass_with_meta cls interfaces resolverArg outputArg argumentsArg
        metaFields = Except.error (InitError.interfaceAssert cls.name shown) ∧
      (InitError.interfaceAssert cls.name shown).message =
        "All interfaces of " ++ cls.name ++
          " must be a subclass of Interface. Received \"" ++ shown ++ "\"." := by
  obtain ⟨s, hs, he⟩ := interfaceLoop_error_of_bad interfaces [] h
  refine ⟨s, hs, ?_, rfl⟩
  unfold init_subclass_with_meta
  rw [he]

/-- Claim C7 witness: passing the non-interface value `Person` as an
interface of `Plain` fails with the named assertion message. -/
theorem non_interface_assertion_witness :
    ∃ shown, IfaceArg.bad shown ∈ [IfaceArg.bad "Person"] ∧
      init_subclass_with_meta plainCls [IfaceArg.bad "Person"] none none none
        none = Except.error (InitError.interfaceAssert plainCls.name shown) ∧
      (InitError.interfaceAssert plainCls.name shown).message =
        "All interfaces of " ++ plainCls.name ++
          " must be a subclass of Interface. Received \"" ++ shown ++ "\"." :=
  non_interface_assertion plainCls [IfaceArg.bad "Person"] none none none none
    ⟨"Person", List.mem_cons_self _ _⟩

/-- Claim C8 (code bug): building `CreatePerson`'s field yields the
descriptor the claim describes (output type the definition itself with
fields `ok` and `person`, arguments `{name}`, validating resolver), but
invoking the generated resolver with the scalar payload `name = "A"`
does not call `mutate` and return its result: `run_validators` calls
`.keys()` on the string value (line 20) and fails with `AttributeError`
before `mutate` runs, contradicting the docstring example the claim
mirrors. -/
theorem createperson_resolver_attribute_error :
    (∃ res, init_subclass_with_meta CreatePerson [] none none none none =
        Except.ok res ∧
      res.output = OutputType.selfType ∧
      dictKeys res.fields = ["ok", "person"] ∧
      dictKeys res.arguments = ["name"] ∧
      res.resolver = ResolverSpec.validating ∧
      (mutationField res none none none none false).ftype = OutputType.selfType ∧
      dictKeys (mutationField res none none none none false).args = ["name"]) ∧
    resolver [("name", { validators := [] })] (fun _ => "CreatePerson(ok, person)")
        [("name", ArgVal.scalar "A")] =
      Except.error (RunError.attributeError "name") :=
  ⟨⟨_, rfl, rfl, rfl, rfl, rfl, rfl, rfl⟩, rfl⟩

/-- Claim C9: for every generated validating resolver, if some declared
argument is absent from the keyword payload or bound to a value without
the `keys()` mapping interface, the resolver raises an error — a
`KeyError` or an `AttributeError` — and never reaches the `mutate` call
(an erroring run produces no trace, in particular no `mutateCall`
event). -/
theorem resolver_errors_before_mutate
    (arguments : Dict ArgumentV) (kwargs : Dict ArgVal) (mutate : Dict ArgVal → String)
    (h : ∃ p, p ∈ arguments ∧
      (dictGet kwargs p.1 = none ∨ ∃ s, dictGet kwargs p.1 = some (ArgVal.scalar s))) :
    ∃ e, resolver arguments mutate kwargs = Except.error e ∧
      (∃ a, e = RunError.keyError a ∨ e = RunError.attributeError a) := by
  obtain ⟨e, he⟩ := run_validators_error_of_missing_or_scalar arguments kwargs h
  refine ⟨e, by simp [resolver, he], ?_⟩
  cases e with
  | keyError a => exact ⟨a, Or.inl rfl⟩
  | attributeError a => exact ⟨a, Or.inr rfl⟩

/-- Claim C9 witness: one declared argument `name` and an empty payload:
the resolver errors instead of reaching `mutate`. -/
theorem resolver_errors_before_mutate_witness :
    ∃ e, resolver [("name", { validators := [] })] (fun _ => "r") [] =
        Except.error e ∧
      (∃ a, e = RunError.keyError a ∨ e = RunError.attributeError a) :=
  resolver_errors_before_mutate [("name", { validators := [] })] [] (fun _ => "r")
    ⟨("name", { validators := [] }), List.mem_cons_self _ _, Or.inl rfl⟩

/-- Claim C10: for every mutation definition without explicit meta
arguments that declares both an `Arguments` inner class and a legacy
`Input` inner class, the produced arguments come exclusively from
`Arguments` and no deprecation warning is emitted. -/
theorem arguments_shadow_input
    (cls : MutationDef) (interfaces : List IfaceArg) (resolverArg : Option Nat)
    (outputArg : Option String) (argumentsArg : Option (Dict ArgumentV))
    (metaFields : Option (Dict String)) (res : InitResult)
    (dA dI : Dict ArgumentV)
    (hargs : argumentsTruthy argumentsArg = false)
    (hA : cls.argumentsAttr = some dA)
    (hInp : cls.inputAttr = some dI)
    (hrun : init_subclass_with_meta cls interfaces resolverArg outputArg argumentsArg
      metaFields = Except.ok res) :
    res.arguments = dA ∧ res.warnedDeprecation = false := by
  obtain ⟨F, hIF, hcase⟩ := init_ok_inversion _ _ _ _ _ _ _ hrun
  have hres : res.arguments = (resolveArguments cls argumentsArg).1 ∧
      res.warnedDeprecation = (resolveArguments cls argumentsArg).2 := by
    rcases hcase with ⟨r, _, hr⟩ | ⟨_, _, hr⟩ <;> subst hr <;> exact ⟨rfl, rfl⟩
  rw [hres.1, hres.2]
  constructor <;> simp [resolveArguments, hargs, hA]

/-- Claim C10 witness: a definition declaring both inner classes takes
its arguments from `Arguments` and emits no warning. -/
theorem arguments_shadow_input_witness :
    bothArgsRes.arguments = [("fromArguments", { validators := [] })] ∧
    bothArgsRes.warnedDeprecation = false :=
  arguments_shadow_input bothArgsCls [] none none none none bothArgsRes
    [("fromArguments", { validators := [] })]
    [("fromInput", { validators := [] })] rfl rfl rfl rfl

end Graphene
